import Mathlib

set_option maxRecDepth 40000
set_option maxHeartbeats 2000000

/-!
Verification development for the repository's single script
`convert_to_pdf.py`: it reads a fixed markdown file, renders it to HTML
with a third-party markdown renderer (extensions `fenced_code` and
`tables`), interpolates the rendered fragment into a fixed print-oriented
HTML template, and writes the result to a fixed output file.

The template, the interpolation, and the read/render/write pipeline are
embedded below directly from the source.  The third-party renderer itself
is not part of the repository, so it is modelled from the spec where a
claim depends on its output.
-/

/-- The fixed part of the f-string template (`styled_html` in the source)
that precedes the `<body>` line, one entry per template line: the leading
newline, doctype, `<head>` block and the inline style sheet, transcribed
byte-for-byte from `convert_to_pdf.py` lines 13-97 (with the f-string's
`{{`/`}}` escapes rendered as single braces, written here as
`\x7b`/`\x7d`; each entry carries its terminating newline). -/
def templateLines : List String :=
  ["\n<!DOCTYPE html>\n",
   "<html>\n",
   "<head>\n",
   "    <meta charset=\"UTF-8\">\n",
   "    <title>PWA Deployment & Usage Guide</title>\n",
   "    <style>\n",
   "        @page \x7b\n",
   "            size: A4;\n",
   "            margin: 2cm;\n",
   "        \x7d\n",
   "        body \x7b\n",
   "            font-family: -apple-system, BlinkMacSystemFont, \x27Segoe UI\x27, Arial, sans-serif;\n",
   "            line-height: 1.6;\n",
   "            color: #333;\n",
   "            max-width: 800px;\n",
   "            margin: 0 auto;\n",
   "            padding: 20px;\n",
   "        \x7d\n",
   "        h1 \x7b\n",
   "            color: #2c3e50;\n",
   "            border-bottom: 3px solid #3498db;\n",
   "            padding-bottom: 10px;\n",
   "            margin-top: 30px;\n",
   "        \x7d\n",
   "        h2 \x7b\n",
   "            color: #34495e;\n",
   "            border-bottom: 2px solid #95a5a6;\n",
   "            padding-bottom: 8px;\n",
   "            margin-top: 25px;\n",
   "        \x7d\n",
   "        h3 \x7b\n",
   "            color: #555;\n",
   "            margin-top: 20px;\n",
   "        \x7d\n",
   "        code \x7b\n",
   "            background: #f4f4f4;\n",
   "            padding: 2px 6px;\n",
   "            border-radius: 3px;\n",
   "            font-family: \x27Monaco\x27, \x27Courier New\x27, monospace;\n",
   "            font-size: 0.9em;\n",
   "        \x7d\n",
   "        pre \x7b\n",
   "            background: #2c3e50;\n",
   "            color: #ecf0f1;\n",
   "            padding: 15px;\n",
   "            border-radius: 5px;\n",
   "            overflow-x: auto;\n",
   "        \x7d\n",
   "        pre code \x7b\n",
   "            background: transparent;\n",
   "            color: #ecf0f1;\n",
   "            padding: 0;\n",
   "        \x7d\n",
   "        ul, ol \x7b\n",
   "            margin: 10px 0;\n",
   "            padding-left: 30px;\n",
   "        \x7d\n",
   "        li \x7b\n",
   "            margin: 5px 0;\n",
   "        \x7d\n",
   "        blockquote \x7b\n",
   "            border-left: 4px solid #3498db;\n",
   "            padding-left: 15px;\n",
   "            margin: 15px 0;\n",
   "            color: #555;\n",
   "        \x7d\n",
   "        hr \x7b\n",
   "            border: none;\n",
   "            border-top: 2px solid #ecf0f1;\n",
   "            margin: 30px 0;\n",
   "        \x7d\n",
   "        @media print \x7b\n",
   "            body \x7b\n",
   "                max-width: 100%;\n",
   "            \x7d\n",
   "            h1, h2, h3 \x7b\n",
   "                page-break-after: avoid;\n",
   "            \x7d\n",
   "            pre, blockquote \x7b\n",
   "                page-break-inside: avoid;\n",
   "            \x7d\n",
   "        \x7d\n",
   "    </style>\n",
   "</head>\n"]

/-- The head part of the template: the concatenation of its lines. -/
def templateHead : String := String.mk ((templateLines.map String.data).flatten)

/-- Everything of the template before the interpolated fragment: the head
part followed by the `<body>` line and its newline (source line 98-99). -/
def templateBefore : String := templateHead ++ "<body>\n"

/-- Everything of the template after the interpolated fragment
(source lines 99-102): the newline closing the fragment line, `</body>`,
`</html>`, and the final newline before the closing `\"\"\"`. -/
def templateAfter : String := "\n</body>\n</html>\n"

/-- The f-string `styled_html` of the source: the fixed template with the
rendered fragment interpolated verbatim between the two fixed parts. -/
def styled_html (html_content : String) : String :=
  templateBefore ++ html_content ++ templateAfter

/-- The hard-coded input path (source line 6). -/
def inputPath : String := "PWA_DEPLOYMENT_GUIDE.md"

/-- The hard-coded output path (source line 105). -/
def outputPath : String := "PWA_DEPLOYMENT_GUIDE_PRINTABLE.html"

/-- The extensions list passed to the renderer (source line 10). -/
def extensions : List String := ["fenced_code", "tables"]

/-- The renderer call of source line 10, abstracted over the renderer
implementation: the document text is passed together with the fixed
extensions list. -/
def markdownCall (impl : String → List String → String) (md : String) : String :=
  impl md extensions

/-- Environment model for the pipeline: file contents by path, plus which
paths can be opened for reading resp. writing. -/
structure SysState where
  files : String → Option String
  readable : String → Bool
  writable : String → Bool

/-- Observable steps of a run, in order. -/
inductive Event where
  | readInput
  | rendered
  | wroteOutput
  | failed
deriving DecidableEq

/-- Writing a file replaces its content at that path and nothing else. -/
def writeFile (st : SysState) (p c : String) : SysState :=
  { st with files := fun q => if q = p then some c else st.files q }

/-- The whole script as one run over the environment, parametrized by the
renderer: open and read the input (raising = `failed` trace, status 1,
state untouched), render, build `styled_html`, then open and write the
output in one whole-buffer write (raising before any modification if the
path is not writable).  Returns the event trace, the process exit status,
and the final environment. -/
def runConvert (render : String → String) (st : SysState) :
    List Event × Nat × SysState :=
  if st.readable inputPath then
    match st.files inputPath with
    | none => ([Event.failed], 1, st)
    | some md =>
      let out := styled_html (render md)
      if st.writable outputPath then
        ([Event.readInput, Event.rendered, Event.wroteOutput], 0,
          writeFile st outputPath out)
      else
        ([Event.readInput, Event.rendered, Event.failed], 1, st)
  else ([Event.failed], 1, st)

/-- Number of positions of `l` at which the pattern `pat` occurs. -/
def countSub (pat : List Char) : List Char → Nat
  | [] => 0
  | c :: t => (if pat.isPrefixOf (c :: t) then 1 else 0) + countSub pat t

/-- Boolean substring test: does `pat` occur somewhere in `l`? -/
def hasSub (pat : List Char) : List Char → Bool
  | [] => pat.isEmpty
  | c :: t => pat.isPrefixOf (c :: t) || hasSub pat t

/-- The `<body>` opening tag. -/
def bodyOpen : List Char := "<body>".data

/-- The `<tr>` opening tag. -/
def trOpen : List Char := "<tr>".data

/-- The one-line form of the page rule quoted literally by the spec. -/
def onePageRule : String := "@page \x7b size: A4; margin: 2cm; \x7d"

/-- The page rule exactly as the template carries it (multi-line,
with the template's indentation). -/
def pageRuleLines : String :=
  "@page \x7b\n            size: A4;\n            margin: 2cm;\n        \x7d"

/-- Modelled from the spec: the block structure produced by the
third-party markdown renderer (`markdown.markdown` with the
`fenced_code` and `tables` extensions), which is not part of this
repository.  The spec describes headings, paragraphs with emphasis,
fenced code blocks (glossary) and pipe-delimited tables with a header
row and data rows. -/
inductive Block where
  | heading (level : Nat) (text : List Char)
  | paragraph (text : List Char)
  | fencedCode (content : List Char)
  | table (header : List (List Char)) (rows : List (List (List Char)))
deriving DecidableEq

/-- Split a character list at newline characters. -/
def splitNL : List Char → List (List Char)
  | [] => [[]]
  | '\n' :: rest => [] :: splitNL rest
  | c :: rest =>
    match splitNL rest with
    | [] => [[c]]
    | x :: xs => (c :: x) :: xs

/-- Split a character list at occurrences of the `**` delimiter. -/
def splitStrong : List Char → List (List Char)
  | [] => [[]]
  | '*' :: '*' :: rest => [] :: splitStrong rest
  | c :: rest =>
    match splitStrong rest with
    | [] => [[c]]
    | x :: xs => (c :: x) :: xs

/-- Rejoin the pieces produced by `splitStrong`, wrapping alternate
pieces in `<strong>` tags; a final unmatched `**` is kept literal. -/
def strongify : List (List Char) → List Char
  | [] => []
  | [x] => x
  | [x, y] => x ++ '*' :: '*' :: y
  | x :: y :: rest =>
    x ++ "<strong>".data ++ y ++ "</strong>".data ++ strongify rest

/-- Modelled from the spec: inline rendering, handling `**` strong
emphasis and passing all other text through unescaped. -/
def renderInline (l : List Char) : List Char := strongify (splitStrong l)

/-- Horizontal whitespace (and stray carriage returns) for trimming. -/
def isWSChar (c : Char) : Bool := c == ' ' || c == '\t' || c == '\r'

/-- Drop leading whitespace. -/
def trimLeadWS (l : List Char) : List Char := l.dropWhile isWSChar

/-- Drop trailing whitespace. -/
def trimTrailWS (l : List Char) : List Char :=
  (l.reverse.dropWhile isWSChar).reverse

/-- Drop leading and trailing whitespace. -/
def trimChars (l : List Char) : List Char := trimLeadWS (trimTrailWS l)

/-- A line holding only whitespace. -/
def isBlankLine (l : List Char) : Bool := (trimChars l).isEmpty

/-- Number of leading `#` characters of an ATX heading line. -/
def countHashes (l : List Char) : Nat := (l.takeWhile (· == '#')).length

/-- A fence delimiter line (three backticks, possibly followed by an
info string). -/
def isFenceLine (l : List Char) : Bool := "```".data.isPrefixOf l

/-- Characters allowed in a table separator line. -/
def sepChar (c : Char) : Bool := c == '-' || c == '|' || c == ':' || c == ' '

/-- A table separator line such as `| --- | --- |`. -/
def isSepLine (l : List Char) : Bool :=
  !(isBlankLine l) && l.all sepChar && l.any (· == '-')

/-- A table data line: non-blank and pipe-delimited. -/
def isRowLine (l : List Char) : Bool := l.any (· == '|') && !(isBlankLine l)

/-- Drop one leading pipe, if present. -/
def dropLeadPipe : List Char → List Char
  | '|' :: r => r
  | r => r

/-- Drop one trailing pipe, if present. -/
def dropTrailPipe (l : List Char) : List Char := (dropLeadPipe l.reverse).reverse

/-- Split a character list at pipe characters. -/
def splitPipes : List Char → List (List Char)
  | [] => [[]]
  | '|' :: rest => [] :: splitPipes rest
  | c :: rest =>
    match splitPipes rest with
    | [] => [[c]]
    | x :: xs => (c :: x) :: xs

/-- Cells of one pipe-delimited table row, trimmed. -/
def parseRow (l : List Char) : List (List Char) :=
  (splitPipes (dropTrailPipe (dropLeadPipe (trimChars l)))).map trimChars

/-- Does a table start here: a pipe-delimited line followed by a
separator line? -/
def isTableStart (l : List Char) (ls : List (List Char)) : Bool :=
  l.any (· == '|') &&
    match ls with
    | sep :: _ => isSepLine sep
    | [] => false

/-- Join lines with newline characters. -/
def joinNL : List (List Char) → List Char
  | [] => []
  | [x] => x
  | x :: xs => x ++ '\n' :: joinNL xs

/-- Modelled from the spec: block-level parsing of the markdown source,
fuel-indexed over the number of remaining lines.  Blank lines separate
blocks; a fence line opens a fenced code block collected verbatim up to
the closing fence; leading `#` characters make an ATX heading; a pipe
line over a separator line makes a table with the following pipe lines
as data rows; anything else makes a paragraph of the following non-blank
lines. -/
def parseLines : Nat → List (List Char) → List Block
  | 0, _ => []
  | _ + 1, [] => []
  | fuel + 1, l :: ls =>
    if isBlankLine l then parseLines fuel ls
    else if isFenceLine l then
      let content := ls.takeWhile (fun x => !(isFenceLine x))
      let rest := (ls.dropWhile (fun x => !(isFenceLine x))).drop 1
      Block.fencedCode (joinNL content) :: parseLines fuel rest
    else if countHashes l > 0 then
      let lvl := min (countHashes l) 6
      Block.heading lvl (trimChars (l.drop lvl)) :: parseLines fuel ls
    else if isTableStart l ls then
      let dataRows := (ls.drop 1).takeWhile isRowLine
      let rest := (ls.drop 1).dropWhile isRowLine
      Block.table (parseRow l) (dataRows.map parseRow) :: parseLines fuel rest
    else
      let para := (l :: ls).takeWhile (fun x => !(isBlankLine x))
      let rest := (l :: ls).dropWhile (fun x => !(isBlankLine x))
      Block.paragraph (joinNL para) :: parseLines fuel rest

/-- Parse a whole document into blocks. -/
def mdParse (s : String) : List Block :=
  parseLines ((splitNL s.data).length + 1) (splitNL s.data)

/-- HTML entity escaping of `&`, `<` and `>`, all other characters kept. -/
def escapeChar (c : Char) : List Char :=
  if c == '&' then "&amp;".data
  else if c == '<' then "&lt;".data
  else if c == '>' then "&gt;".data
  else [c]

/-- HTML entity escaping of a character list. -/
def escapeHtml (l : List Char) : List Char := (l.map escapeChar).flatten

/-- Tag name for a heading of the given level. -/
def headingTag : Nat → List Char
  | 1 => "h1".data
  | 2 => "h2".data
  | 3 => "h3".data
  | 4 => "h4".data
  | 5 => "h5".data
  | _ => "h6".data

/-- The `<pre><code>` element produced for a fenced code block: the
block's literal text, HTML-entity escaped, inside `<pre><code>`. -/
def preCodeElem (c : List Char) : List Char :=
  "<pre><code>".data ++ escapeHtml c ++ "\n</code></pre>".data

/-- One `<th>` cell of a table header row. -/
def thCell (c : List Char) : List Char :=
  "<th>".data ++ renderInline c ++ "</th>\n".data

/-- One `<td>` cell of a table data row. -/
def tdCell (c : List Char) : List Char :=
  "<td>".data ++ renderInline c ++ "</td>\n".data

/-- One table row: the cells wrapped in a `<tr>` element. -/
def renderRowWith (cell : List Char → List Char) (cells : List (List Char)) :
    List Char :=
  "<tr>\n".data ++ (cells.map cell).flatten ++ "</tr>\n".data

/-- Modelled from the spec: a pipe table renders to a `<table>` element
whose `<thead>` holds the header row and whose `<tbody>` holds the data
rows. -/
def renderTable (header : List (List Char)) (rows : List (List (List Char))) :
    List Char :=
  "<table>\n<thead>\n".data ++ renderRowWith thCell header ++
    "</thead>\n<tbody>\n".data ++ (rows.map (renderRowWith tdCell)).flatten ++
    "</tbody>\n</table>".data

/-- Rendering of one block. -/
def renderBlock : Block → List Char
  | Block.heading lvl t =>
    "<".data ++ headingTag lvl ++ ">".data ++ renderInline t ++
      "</".data ++ headingTag lvl ++ ">".data
  | Block.paragraph t => "<p>".data ++ renderInline t ++ "</p>".data
  | Block.fencedCode c => preCodeElem c
  | Block.table h rows => renderTable h rows

/-- Modelled from the spec: the rendered fragment of a document, as a
character list — the rendered blocks joined by newlines. -/
def mdRenderL (s : String) : List Char :=
  joinNL ((mdParse s).map renderBlock)

/-- The rendered fragment of a document, as a string. -/
def mdRender (s : String) : String := String.mk (mdRenderL s)

/-- The full pipeline on document text: render, then wrap in the
template. -/
def outputDoc (s : String) : String := styled_html (mdRender s)

/-- The input of the spec's end-to-end example scenario. -/
def exampleInput : String := "# Title\n\nHello **world**."

/-- The fragment the spec's example scenario requires. -/
def exampleFragment : String :=
  "<h1>Title</h1>\n<p>Hello <strong>world</strong>.</p>"

/-- No nonempty proper prefix of `pat` is a suffix of `p`: appending
anything to the right of `p` cannot create a new occurrence of `pat`
reaching across the boundary. -/
abbrev leftBlocked (pat p : List Char) : Prop :=
  ∀ k, k < pat.length → 0 < k → k ≤ p.length → p.drop (p.length - k) ≠ pat.take k

/-- No nonempty proper suffix of `pat` is a prefix of `b`: occurrences of
`pat` in `a ++ b` cannot reach from `a` across into `b`. -/
abbrev rightBlocked (pat b : List Char) : Prop :=
  ∀ k, k < pat.length → 0 < k → (pat.drop k).isPrefixOf b = false

/-- All fixed pieces of the template preceding the interpolated fragment:
the head lines followed by the `<body>` line.  Every piece ends in a
newline, so occurrence counting can be done piece by piece. -/
def fullPieces : List (List Char) :=
  (templateLines ++ ["<body>\n"]).map String.data

/-- The four consecutive template lines carrying the `@page` rule. -/
def pageRuleChunk : String :=
  "        @page \x7b\n" ++ "            size: A4;\n" ++
    "            margin: 2cm;\n" ++ "        \x7d\n"

/-- The template-wrapping property exactly as the spec states it, at one
rendered fragment: exactly one `<body>` opening tag, the fragment text
immediately following that tag, and the style block containing the
literal one-line rule quoted by the spec. -/
def claimC1At (s : String) : Prop :=
  countSub bodyOpen (styled_html s).data = 1 ∧
  (bodyOpen ++ s.data) <:+: (styled_html s).data ∧
  onePageRule.data <:+: (styled_html s).data

/-- An environment with no files at all: the input file is missing. -/
def stMissing : SysState :=
  { files := fun _ => none, readable := fun _ => true, writable := fun _ => true }

/-- An environment where every file reads `# Title` but nothing is
writable. -/
def stNoWrite : SysState :=
  { files := fun _ => some "# Title", readable := fun _ => true,
    writable := fun _ => false }

/-- An environment where every file reads `# Title` and writing works. -/
def stOk : SysState :=
  { files := fun _ => some "# Title", readable := fun _ => true,
    writable := fun _ => true }

/-- Unpacking `String.append` to list append. -/
theorem data_append (a b : String) : (a ++ b).data = a.data ++ b.data := by
  cases a; cases b; rfl

/-- At a `rightBlocked` boundary, a pattern occurrence starting at the
very beginning of `a ++ b` must lie inside `a`. -/
theorem isPrefixOf_append_of_rightBlocked (pat a b : List Char) (hne : a ≠ [])
    (h : rightBlocked pat b) : pat.isPrefixOf (a ++ b) = pat.isPrefixOf a := by
  cases hall : pat.isPrefixOf a with
  | true =>
    have hp : pat <+: a := List.isPrefixOf_iff_prefix.mp hall
    have hpb : pat <+: a ++ b := hp.trans ( List.prefix_append a b)
    exact List.isPrefixOf_iff_prefix.mpr hpb
  | false =>
    cases hab : pat.isPrefixOf (a ++ b) with
    | false => rfl
    | true =>
      exfalso
      have hp : pat <+: a ++ b := List.isPrefixOf_iff_prefix.mp hab
      rcases le_or_lt pat.length a.length with hle | hlt
      · have hpa : pat <+: a :=
          List.prefix_of_prefix_length_le hp ( List.prefix_append a b) hle
        have hc : pat.isPrefixOf a = true := List.isPrefixOf_iff_prefix.mpr hpa
        rw [hall] at hc
        simp at hc
      · have hap : a <+: pat :=
          List.prefix_of_prefix_length_le ( List.prefix_append a b) hp
            (Nat.le_of_lt hlt)
        obtain ⟨t, ht⟩ := hap
        have htb : t <+: b := by
          obtain ⟨u, hu⟩ := hp
          have hca : a ++ (t ++ u) = a ++ b := by
            rw [← List.append_assoc, ht, hu]
          exact ⟨u, List.append_cancel_left hca⟩
        have h0 : 0 < a.length := by
          cases a with
          | nil => exact absurd rfl hne
          | cons _ _ => simp
        have hk := h a.length hlt h0
        rw [show pat.drop a.length = t by rw [← ht, List.drop_left]] at hk
        have hc : t.isPrefixOf b = true := List.isPrefixOf_iff_prefix.mpr htb
        rw [hk] at hc
        simp at hc

/-- At a `leftBlocked` boundary, a pattern occurrence starting at the very
beginning of `a ++ b` must lie inside `a`. -/
theorem isPrefixOf_append_of_leftBlocked (pat a b : List Char) (hne : a ≠ [])
    (h : leftBlocked pat a) : pat.isPrefixOf (a ++ b) = pat.isPrefixOf a := by
  cases hall : pat.isPrefixOf a with
  | true =>
    have hp : pat <+: a := List.isPrefixOf_iff_prefix.mp hall
    have hpb : pat <+: a ++ b := hp.trans ( List.prefix_append a b)
    exact List.isPrefixOf_iff_prefix.mpr hpb
  | false =>
    cases hab : pat.isPrefixOf (a ++ b) with
    | false => rfl
    | true =>
      exfalso
      have hp : pat <+: a ++ b := List.isPrefixOf_iff_prefix.mp hab
      rcases le_or_lt pat.length a.length with hle | hlt
      · have hpa : pat <+: a :=
          List.prefix_of_prefix_length_le hp ( List.prefix_append a b) hle
        have hc : pat.isPrefixOf a = true := List.isPrefixOf_iff_prefix.mpr hpa
        rw [hall] at hc
        simp at hc
      · have hap : a <+: pat :=
          List.prefix_of_prefix_length_le ( List.prefix_append a b) hp
            (Nat.le_of_lt hlt)
        obtain ⟨t, ht⟩ := hap
        have h0 : 0 < a.length := by
          cases a with
          | nil => exact absurd rfl hne
          | cons _ _ => simp
        apply h a.length hlt h0 (Nat.le_refl _)
        rw [Nat.sub_self, List.drop_zero, ← ht, List.take_left]

/-- Occurrence counting distributes over an append whose right side is
`rightBlocked`. -/
theorem countSub_append_of_rightBlocked (pat a b : List Char)
    (h : rightBlocked pat b) :
    countSub pat (a ++ b) = countSub pat a + countSub pat b := by
  induction a with
  | nil => simp [countSub]
  | cons x a2 ih =>
    have hb : pat.isPrefixOf (x :: (a2 ++ b)) = pat.isPrefixOf (x :: a2) := by
      have hx := isPrefixOf_append_of_rightBlocked pat (x :: a2) b (by simp) h
      simpa using hx
    rw [List.cons_append]
    simp only [countSub, hb, ih]
    omega

/-- Occurrence counting distributes over an append whose left side is
`leftBlocked`. -/
theorem countSub_append_of_leftBlocked (pat a b : List Char)
    (h : leftBlocked pat a) :
    countSub pat (a ++ b) = countSub pat a + countSub pat b := by
  induction a with
  | nil => simp [countSub]
  | cons x a2 ih =>
    have h2 : leftBlocked pat a2 := by
      intro k hk h0 hle
      have hx := h k hk h0 (by simp; omega)
      have hlen : (x :: a2).length - k = (a2.length - k) + 1 := by simp; omega
      rw [hlen, List.drop_succ_cons] at hx
      exact hx
    have hb : pat.isPrefixOf (x :: (a2 ++ b)) = pat.isPrefixOf (x :: a2) := by
      have hx := isPrefixOf_append_of_leftBlocked pat (x :: a2) b (by simp) h
      simpa using hx
    rw [List.cons_append]
    simp only [countSub, hb, ih h2]
    omega

/-- A pattern with an empty pattern list occurs everywhere. -/
theorem hasSub_nil_pat (b : List Char) : hasSub [] b = true := by
  cases b <;> rfl

/-- Substring search distributes over an append whose right side is
`rightBlocked`. -/
theorem hasSub_append_of_rightBlocked (pat a b : List Char)
    (h : rightBlocked pat b) :
    hasSub pat (a ++ b) = (hasSub pat a || hasSub pat b) := by
  induction a with
  | nil =>
    cases hp : pat with
    | nil => simp [hasSub_nil_pat, hasSub]
    | cons c p => simp [hasSub]
  | cons x a2 ih =>
    have hb : pat.isPrefixOf (x :: (a2 ++ b)) = pat.isPrefixOf (x :: a2) := by
      have hx := isPrefixOf_append_of_rightBlocked pat (x :: a2) b (by simp) h
      simpa using hx
    rw [List.cons_append]
    simp only [hasSub, hb, ih]
    cases pat.isPrefixOf (x :: a2) <;> cases hasSub pat a2 <;>
      cases hasSub pat b <;> rfl

/-- Substring search distributes over an append whose left side is
`leftBlocked`. -/
theorem hasSub_append_of_leftBlocked (pat a b : List Char)
    (h : leftBlocked pat a) :
    hasSub pat (a ++ b) = (hasSub pat a || hasSub pat b) := by
  induction a with
  | nil =>
    cases hp : pat with
    | nil => simp [hasSub_nil_pat, hasSub]
    | cons c p => simp [hasSub]
  | cons x a2 ih =>
    have h2 : leftBlocked pat a2 := by
      intro k hk h0 hle
      have hx := h k hk h0 (by simp; omega)
      have hlen : (x :: a2).length - k = (a2.length - k) + 1 := by simp; omega
      rw [hlen, List.drop_succ_cons] at hx
      exact hx
    have hb : pat.isPrefixOf (x :: (a2 ++ b)) = pat.isPrefixOf (x :: a2) := by
      have hx := isPrefixOf_append_of_leftBlocked pat (x :: a2) b (by simp) h
      simpa using hx
    rw [List.cons_append]
    simp only [hasSub, hb, ih h2]
    cases pat.isPrefixOf (x :: a2) <;> cases hasSub pat a2 <;>
      cases hasSub pat b <;> rfl

/-- `hasSub` decides substring occurrence. -/
theorem hasSub_eq_true_iff (pat l : List Char) :
    hasSub pat l = true ↔ pat <:+: l := by
  induction l with
  | nil =>
    simp [hasSub, List.isEmpty_iff]
  | cons c t ih =>
    simp only [hasSub, Bool.or_eq_true, ih, List.isPrefixOf_iff_prefix]
    exact (List.infix_cons_iff).symm

/-- Counting over a flattened list of `leftBlocked` pieces followed by a
tail is the sum of the per-piece counts plus the count in the tail. -/
theorem countSub_flatten_append (pat : List Char) (ps : List (List Char))
    (b : List Char) (h : ∀ p ∈ ps, leftBlocked pat p) :
    countSub pat (ps.flatten ++ b) =
      (ps.map (countSub pat)).sum + countSub pat b := by
  induction ps with
  | nil => simp [countSub]
  | cons p ps2 ih =>
    have hp := h p (by simp)
    have hrest : ∀ q ∈ ps2, leftBlocked pat q := fun q hq => h q (by simp [hq])
    rw [List.flatten_cons, List.append_assoc,
      countSub_append_of_leftBlocked pat p _ hp, ih hrest]
    simp [Nat.add_assoc]

/-- Substring search over a flattened list of `leftBlocked` pieces
followed by a tail is the disjunction of the per-piece searches and the
search in the tail. -/
theorem hasSub_flatten_append (pat : List Char) (ps : List (List Char))
    (b : List Char) (h : ∀ p ∈ ps, leftBlocked pat p) :
    hasSub pat (ps.flatten ++ b) =
      (ps.any (hasSub pat) || hasSub pat b) := by
  induction ps with
  | nil => simp
  | cons p ps2 ih =>
    have hp := h p (by simp)
    have hrest : ∀ q ∈ ps2, leftBlocked pat q := fun q hq => h q (by simp [hq])
    rw [List.flatten_cons, List.append_assoc,
      hasSub_append_of_leftBlocked pat p _ hp, ih hrest]
    simp [Bool.or_assoc]

/-- The output document in explicit template shape: the head, the
`<body>` line, the fragment, and the tail. -/
theorem styled_shape (s : String) :
    (styled_html s).data =
      templateHead.data ++ ("<body>\n".data ++ (s.data ++ templateAfter.data)) := by
  simp [styled_html, templateBefore, data_append, List.append_assoc]

/-- The output document as the flattened fixed pieces followed by the
fragment and the template tail. -/
theorem styled_pieces (s : String) :
    (styled_html s).data = fullPieces.flatten ++ (s.data ++ templateAfter.data) := by
  rw [styled_shape]
  simp [fullPieces, templateHead, List.map_append, List.flatten_append,
    List.append_assoc]

/-- Occurrence counting over the whole output document, piece by piece. -/
theorem countSub_styled (pat : List Char) (s : String)
    (hp : ∀ p ∈ fullPieces, leftBlocked pat p)
    (ha : rightBlocked pat templateAfter.data) :
    countSub pat (styled_html s).data =
      (fullPieces.map (countSub pat)).sum +
        (countSub pat s.data + countSub pat templateAfter.data) := by
  rw [styled_pieces, countSub_flatten_append pat fullPieces _ hp,
    countSub_append_of_rightBlocked pat _ _ ha]

/-- Substring search over the whole output document, piece by piece. -/
theorem hasSub_styled (pat : List Char) (s : String)
    (hp : ∀ p ∈ fullPieces, leftBlocked pat p)
    (ha : rightBlocked pat templateAfter.data) :
    hasSub pat (styled_html s).data =
      (fullPieces.any (hasSub pat) ||
        (hasSub pat s.data || hasSub pat templateAfter.data)) := by
  rw [styled_pieces, hasSub_flatten_append pat fullPieces _ hp,
    hasSub_append_of_rightBlocked pat _ _ ha]

/-- Anything inside the middle of a three-part append is an infix of the
whole. -/
theorem infix_of_mid {t m : List Char} (a b : List Char) (h : t <:+: m) :
    t <:+: a ++ m ++ b := by
  obtain ⟨u, v, huv⟩ := h
  refine ⟨a ++ u, v ++ b, ?_⟩
  rw [← huv]
  simp [List.append_assoc]

/-- Every line is an infix of the newline-join of any list containing it. -/
theorem mem_joinNL {x : List Char} {l : List (List Char)} (h : x ∈ l) :
    x <:+: joinNL l := by
  induction l with
  | nil => cases h
  | cons y ys ih =>
    cases ys with
    | nil =>
      have hxy : x = y := by simpa using h
      subst hxy
      simp [joinNL]
    | cons z zs =>
      rcases List.mem_cons.mp h with hxy | hmem
      · subst hxy
        exact ⟨[], '\n' :: joinNL (z :: zs), by simp [joinNL]⟩
      · obtain ⟨u, v, huv⟩ := ih hmem
        refine ⟨y ++ '\n' :: u, v, ?_⟩
        rw [show joinNL (y :: z :: zs) = y ++ '\n' :: joinNL (z :: zs) from rfl,
          ← huv]
        simp [List.append_assoc]

/-- The rendering of every parsed block is an infix of the final output
document. -/
theorem renderBlock_in_outputDoc {b : Block} {doc : String}
    (h : b ∈ mdParse doc) : renderBlock b <:+: (outputDoc doc).data := by
  have h1 : renderBlock b ∈ (mdParse doc).map renderBlock :=
    List.mem_map_of_mem renderBlock h
  have h2 : renderBlock b <:+: mdRenderL doc := mem_joinNL h1
  have h3 : (outputDoc doc).data =
      templateBefore.data ++ mdRenderL doc ++ templateAfter.data := by
    simp only [outputDoc, styled_html, data_append]
    rfl
  rw [h3]
  exact infix_of_mid _ _ h2

/-- No `<tr>` occurrence inside one rendered `<th>` cell whose inline
content has none. -/
theorem countSub_trOpen_thCell (c : List Char)
    (h : countSub trOpen (renderInline c) = 0) :
    countSub trOpen (thCell c) = 0 := by
  have e : thCell c = ("<th>".data ++ renderInline c) ++ "</th>\n".data := by
    simp [thCell, List.append_assoc]
  rw [e, countSub_append_of_rightBlocked trOpen _ _ (by decide),
    countSub_append_of_leftBlocked trOpen _ _ (by decide), h]
  decide
/-- No `<tr>` occurrence inside one rendered `<td>` cell whose inline
content has none. -/
theorem countSub_trOpen_tdCell (c : List Char)
    (h : countSub trOpen (renderInline c) = 0) :
    countSub trOpen (tdCell c) = 0 := by
  have e : tdCell c = ("<td>".data ++ renderInline c) ++ "</td>\n".data := by
    simp [tdCell, List.append_assoc]
  rw [e, countSub_append_of_rightBlocked trOpen _ _ (by decide),
    countSub_append_of_leftBlocked trOpen _ _ (by decide), h]
  decide

/-- No `<tr>` occurrence in a run of rendered `<th>` cells. -/
theorem countSub_trOpen_thCells (cells : List (List Char))
    (h : ∀ c ∈ cells, countSub trOpen (renderInline c) = 0) :
    countSub trOpen ((cells.map thCell).flatten) = 0 := by
  induction cells with
  | nil => simp [countSub]
  | cons c cs ih =>
    have hc := h c (by simp)
    have hcs : ∀ q ∈ cs, countSub trOpen (renderInline q) = 0 :=
      fun q hq => h q (by simp [hq])
    rw [List.map_cons, List.flatten_cons]
    rw [countSub_append_of_rightBlocked trOpen (thCell c) _ ?hb]
    case hb =>
      intro k hk h0
      have hk4 : k < 4 := by
        have e4 : trOpen.length = 4 := rfl
        rw [e4] at hk
        exact hk
      cases cs with
      | nil => interval_cases k <;> rfl
      | cons c2 cs2 =>
        rw [List.map_cons, List.flatten_cons]
        interval_cases k <;> rfl
    rw [ih hcs, countSub_trOpen_thCell c hc]

/-- No `<tr>` occurrence in a run of rendered `<td>` cells. -/
theorem countSub_trOpen_tdCells (cells : List (List Char))
    (h : ∀ c ∈ cells, countSub trOpen (renderInline c) = 0) :
    countSub trOpen ((cells.map tdCell).flatten) = 0 := by
  induction cells with
  | nil => simp [countSub]
  | cons c cs ih =>
    have hc := h c (by simp)
    have hcs : ∀ q ∈ cs, countSub trOpen (renderInline q) = 0 :=
      fun q hq => h q (by simp [hq])
    rw [List.map_cons, List.flatten_cons]
    rw [countSub_append_of_rightBlocked trOpen (tdCell c) _ ?hb]
    case hb =>
      intro k hk h0
      have hk4 : k < 4 := by
        have e4 : trOpen.length = 4 := rfl
        rw [e4] at hk
        exact hk
      cases cs with
      | nil => interval_cases k <;> rfl
      | cons c2 cs2 =>
        rw [List.map_cons, List.flatten_cons]
        interval_cases k <;> rfl
    rw [ih hcs, countSub_trOpen_tdCell c hc]

/-- A rendered header row holds exactly one `<tr>` opening tag when no
cell content carries one. -/
theorem countSub_trOpen_rowTh (cells : List (List Char))
    (h : ∀ c ∈ cells, countSub trOpen (renderInline c) = 0) :
    countSub trOpen (renderRowWith thCell cells) = 1 := by
  have e : renderRowWith thCell cells =
      ("<tr>\n".data ++ (cells.map thCell).flatten) ++ "</tr>\n".data := by
    simp [renderRowWith, List.append_assoc]
  rw [e, countSub_append_of_rightBlocked trOpen _ _ (by decide),
    countSub_append_of_leftBlocked trOpen _ _ (by decide),
    countSub_trOpen_thCells cells h]
  decide

/-- A rendered data row holds exactly one `<tr>` opening tag when no cell
content carries one. -/
theorem countSub_trOpen_rowTd (cells : List (List Char))
    (h : ∀ c ∈ cells, countSub trOpen (renderInline c) = 0) :
    countSub trOpen (renderRowWith tdCell cells) = 1 := by
  have e : renderRowWith tdCell cells =
      ("<tr>\n".data ++ (cells.map tdCell).flatten) ++ "</tr>\n".data := by
    simp [renderRowWith, List.append_assoc]
  rw [e, countSub_append_of_rightBlocked trOpen _ _ (by decide),
    countSub_append_of_leftBlocked trOpen _ _ (by decide),
    countSub_trOpen_tdCells cells h]
  decide

/-- Claim C2: for the input `# Title\n\nHello **world**.` the rendered
fragment equals `<h1>Title</h1>\n<p>Hello <strong>world</strong>.</p>`
and is embedded verbatim between the template's `<body>` and `</body>`
tags, and for every input the rest of the template (head and style
block) in the output file is byte-identical to the fixed template. -/
theorem spec_C2 :
    mdRender exampleInput = exampleFragment ∧
    (∀ s : String, (styled_html s).data =
      templateHead.data ++
        ("<body>\n".data ++ (s.data ++ templateAfter.data))) :=
  ⟨by decide, styled_shape⟩

/-- Claim C3: when the input file is missing or unreadable, the run fails
with a non-zero status and the environment — in particular any
pre-existing output file — is left untouched. -/
theorem spec_C3 (render : String → String) (st : SysState)
    (h : st.files inputPath = none ∨ st.readable inputPath = false) :
    (runConvert render st).1 = [Event.failed] ∧
    (runConvert render st).2.1 = 1 ∧
    (runConvert render st).2.2 = st := by
  rcases h with hf | hr
  · by_cases hrd : st.readable inputPath = true
    · simp [runConvert, hrd, hf]
    · simp [runConvert, hrd]
  · simp [runConvert, hr]

/-- Witness for C3 at a concrete environment with no input file. -/
theorem spec_C3_witness :
    (stMissing.files inputPath = none ∨ stMissing.readable inputPath = false) ∧
    ((runConvert mdRender stMissing).1 = [Event.failed] ∧
      (runConvert mdRender stMissing).2.1 = 1 ∧
      (runConvert mdRender stMissing).2.2 = stMissing) :=
  ⟨Or.inl rfl, spec_C3 mdRender stMissing (Or.inl rfl)⟩

/-- Claim C4: when the output path is not writable, the run fails with a
non-zero status only after the input has been read and rendered, and the
environment is left untouched (no partial output). -/
theorem spec_C4 (render : String → String) (st : SysState) (md : String)
    (hr : st.readable inputPath = true) (hf : st.files inputPath = some md)
    (hw : st.writable outputPath = false) :
    (runConvert render st).1 =
      [Event.readInput, Event.rendered, Event.failed] ∧
    (runConvert render st).2.1 = 1 ∧
    (runConvert render st).2.2 = st := by
  simp [runConvert, hr, hf, hw]

/-- Witness for C4 at a concrete environment with unwritable output. -/
theorem spec_C4_witness :
    stNoWrite.readable inputPath = true ∧
    stNoWrite.files inputPath = some "# Title" ∧
    stNoWrite.writable outputPath = false ∧
    ((runConvert mdRender stNoWrite).1 =
      [Event.readInput, Event.rendered, Event.failed] ∧
      (runConvert mdRender stNoWrite).2.1 = 1 ∧
      (runConvert mdRender stNoWrite).2.2 = stNoWrite) :=
  ⟨rfl, rfl, rfl, spec_C4 mdRender stNoWrite "# Title" rfl rfl rfl⟩

/-- Claim C5: a successful run writes `styled_html (render md)` to the
output path, and a second run on the resulting environment writes a
byte-identical output. -/
theorem spec_C5 (render : String → String) (st : SysState) (md : String)
    (hr : st.readable inputPath = true) (hf : st.files inputPath = some md)
    (hw : st.writable outputPath = true) :
    ((runConvert render st).2.2).files outputPath =
      some (styled_html (render md)) ∧
    ((runConvert render (runConvert render st).2.2).2.2).files outputPath =
      ((runConvert render st).2.2).files outputPath := by
  have h1 : (runConvert render st).2.2 =
      writeFile st outputPath (styled_html (render md)) := by
    simp [runConvert, hr, hf, hw]
  have hio : ¬ (inputPath = outputPath) := by decide
  constructor
  · rw [h1]
    simp [writeFile]
  · rw [h1]
    simp [runConvert, writeFile, hio, hr, hf, hw]

/-- Witness for C5 at a concrete environment. -/
theorem spec_C5_witness :
    stOk.readable inputPath = true ∧
    stOk.files inputPath = some "# Title" ∧
    stOk.writable outputPath = true ∧
    (((runConvert mdRender stOk).2.2).files outputPath =
      some (styled_html (mdRender "# Title")) ∧
      ((runConvert mdRender (runConvert mdRender stOk).2.2).2.2).files
          outputPath =
        ((runConvert mdRender stOk).2.2).files outputPath) :=
  ⟨rfl, rfl, rfl, spec_C5 mdRender stOk "# Title" rfl rfl rfl⟩

/-- Claim C6: the renderer is invoked with exactly the two extensions
`fenced_code` and `tables` and nothing else. -/
theorem spec_C6 :
    extensions = ["fenced_code", "tables"] ∧
    extensions.length = 2 ∧
    "fenced_code" ∈ extensions ∧ "tables" ∈ extensions ∧
    (∀ e ∈ extensions, e = "fenced_code" ∨ e = "tables") ∧
    "footnotes" ∉ extensions ∧ "def_list" ∉ extensions ∧
    (∀ impl md, markdownCall impl md = impl md ["fenced_code", "tables"]) :=
  ⟨rfl, rfl, by decide, by decide, by decide, by decide, by decide,
    fun _ _ => rfl⟩

/-- Claim C10: every output document begins with a newline before the
doctype and ends with a newline after `</html>`. -/
theorem spec_C10 (s : String) :
    "\n<!DOCTYPE html>".data <+: (styled_html s).data ∧
    "</html>\n".data <:+ (styled_html s).data := by
  constructor
  · have e2 : fullPieces = "\n<!DOCTYPE html>\n".data ::
        ((templateLines.drop 1 ++ ["<body>\n"]).map String.data) := rfl
    have e1 : (styled_html s).data =
        "\n<!DOCTYPE html>\n".data ++
          (((templateLines.drop 1 ++ ["<body>\n"]).map String.data).flatten ++
            (s.data ++ templateAfter.data)) := by
      rw [styled_pieces, e2, List.flatten_cons, List.append_assoc]
    rw [e1]
    have hpre : "\n<!DOCTYPE html>".data <+: "\n<!DOCTYPE html>\n".data := by
      decide
    exact hpre.trans ( List.prefix_append _ _)
  · have e3 : (styled_html s).data =
        (templateHead.data ++ ("<body>\n".data ++ s.data)) ++
          templateAfter.data := by
      rw [styled_shape]
      simp [List.append_assoc]
    rw [e3]
    have hsuf : "</html>\n".data <:+ templateAfter.data := by decide
    exact hsuf.trans ⟨templateHead.data ++ ("<body>\n".data ++ s.data), rfl⟩

/-- Claim C1 (amended): for every non-empty rendered fragment that does
not itself contain `<body>`, the output document contains exactly one
`<body>` opening tag, the fragment text follows that tag after the
template's newline, and the template's style block is present with the
`@page` size-A4 / margin-2cm rule in its multi-line template
formatting. -/
theorem spec_C1 (s : String) (_h1 : s ≠ "")
    (h2 : countSub bodyOpen s.data = 0) :
    countSub bodyOpen (styled_html s).data = 1 ∧
    ("<body>\n".data ++ s.data) <:+: (styled_html s).data ∧
    pageRuleLines.data <:+: (styled_html s).data := by
  refine ⟨?_, ?_, ?_⟩
  · rw [countSub_styled bodyOpen s (by decide) (by decide), h2]
    decide
  · refine ⟨templateHead.data, templateAfter.data, ?_⟩
    rw [styled_shape]
    simp [List.append_assoc]
  · have h3 : pageRuleLines.data <:+: pageRuleChunk.data :=
      (hasSub_eq_true_iff _ _).mp (by decide)
    have hsplit : templateLines =
        templateLines.take 6 ++
          (["        @page \x7b\n", "            size: A4;\n",
            "            margin: 2cm;\n", "        \x7d\n"] ++
            templateLines.drop 10) := by decide
    have h4 : pageRuleChunk.data <:+: templateHead.data := by
      refine ⟨((templateLines.take 6).map String.data).flatten,
        ((templateLines.drop 10).map String.data).flatten, ?_⟩
      have e0 : templateHead.data = (templateLines.map String.data).flatten :=
        rfl
      rw [e0]
      conv_rhs => rw [hsplit]
      simp [List.map_append, List.flatten_append, pageRuleChunk, data_append,
        List.append_assoc]
    have h5 : templateHead.data <:+: (styled_html s).data := by
      refine ⟨[], "<body>\n".data ++ (s.data ++ templateAfter.data), ?_⟩
      rw [styled_shape]
      simp
    exact (h3.trans h4).trans h5

/-- Counterexample to C1 as stated: the rendered fragment of the raw-HTML
input `<body>` yields two `<body>` opening tags in the output, and at the
fragment rendered from `x` neither does the fragment immediately follow
the `<body>` tag (the template's newline intervenes) nor does the output
contain the spec's one-line `@page` rule literally (the template formats
it over several lines); so the spec's template-wrapping conjunction fails
at both fragments. -/
theorem spec_C1_counterexample :
    (mdRender "<body>" ≠ "" ∧
      countSub bodyOpen (styled_html (mdRender "<body>")).data = 2 ∧
      ¬ claimC1At (mdRender "<body>")) ∧
    (mdRender "x" ≠ "" ∧
      ¬ ((bodyOpen ++ (mdRender "x").data) <:+:
          (styled_html (mdRender "x")).data) ∧
      ¬ (onePageRule.data <:+: (styled_html (mdRender "x")).data) ∧
      ¬ claimC1At (mdRender "x")) := by
  have hc2 : countSub bodyOpen (styled_html (mdRender "<body>")).data = 2 := by
    rw [countSub_styled bodyOpen _ (by decide) (by decide)]
    decide
  have hadj : ¬ ((bodyOpen ++ (mdRender "x").data) <:+:
      (styled_html (mdRender "x")).data) := by
    intro hI
    have hx := (hasSub_eq_true_iff _ _).mpr hI
    rw [hasSub_styled _ _ (by decide) (by decide)] at hx
    revert hx
    decide
  have hpage : ¬ (onePageRule.data <:+: (styled_html (mdRender "x")).data) := by
    intro hI
    have hx := (hasSub_eq_true_iff _ _).mpr hI
    rw [hasSub_styled _ _ (by decide) (by decide)] at hx
    revert hx
    decide
  refine ⟨⟨by decide, hc2, ?_⟩, by decide, hadj, hpage, ?_⟩
  · intro hc
    have hone := hc.1
    rw [hc2] at hone
    exact absurd hone (by decide)
  · intro hc
    exact hpage hc.2.2

/-- Witness for the amended C1 at the concrete fragment `<p>x</p>`. -/
theorem spec_C1_witness :
    ("<p>x</p>" : String) ≠ "" ∧
    countSub bodyOpen ("<p>x</p>" : String).data = 0 ∧
    (countSub bodyOpen (styled_html "<p>x</p>").data = 1 ∧
      ("<body>\n".data ++ ("<p>x</p>" : String).data) <:+:
        (styled_html "<p>x</p>").data ∧
      pageRuleLines.data <:+: (styled_html "<p>x</p>").data) :=
  ⟨by decide, by decide, spec_C1 "<p>x</p>" (by decide) (by decide)⟩

/-- Claim C7: whenever the parsed document contains a fenced code block
with content `c`, the output document contains a `<pre><code>` element
holding `c` unchanged except for HTML entity escaping of `<`, `>`
and `&`. -/
theorem spec_C7 (doc : String) (c : List Char)
    (h : Block.fencedCode c ∈ mdParse doc) :
    preCodeElem c <:+: (outputDoc doc).data :=
  renderBlock_in_outputDoc h

/-- Witness for C7 at a concrete fenced block with all three escapable
characters. -/
theorem spec_C7_witness :
    Block.fencedCode "a < b & c > d".data ∈ mdParse "```\na < b & c > d\n```" ∧
    preCodeElem "a < b & c > d".data <:+:
      (outputDoc "```\na < b & c > d\n```").data :=
  ⟨by decide, spec_C7 _ _ (by decide)⟩

/-- Claim C8: whenever the parsed document contains a pipe table with a
header row and exactly one data row (whose rendered cells carry no
`<tr>` text of their own), the output document contains a `<table>`
element whose `<thead>` holds exactly one `<tr>` row and whose `<tbody>`
holds exactly one `<tr>` row. -/
theorem spec_C8 (doc : String) (hdr row : List (List Char))
    (hmem : Block.table hdr [row] ∈ mdParse doc)
    (hh : ∀ c ∈ hdr, countSub trOpen (renderInline c) = 0)
    (hr : ∀ c ∈ row, countSub trOpen (renderInline c) = 0) :
    renderTable hdr [row] <:+: (outputDoc doc).data ∧
    renderTable hdr [row] =
      "<table>\n<thead>\n".data ++ renderRowWith thCell hdr ++
        "</thead>\n<tbody>\n".data ++ renderRowWith tdCell row ++
        "</tbody>\n</table>".data ∧
    countSub trOpen (renderRowWith thCell hdr) = 1 ∧
    countSub trOpen (renderRowWith tdCell row) = 1 := by
  refine ⟨renderBlock_in_outputDoc hmem, ?_,
    countSub_trOpen_rowTh hdr hh, countSub_trOpen_rowTd row hr⟩
  simp [renderTable, List.append_assoc]

/-- Witness for C8 at the concrete table `| a | b |` over `| c | d |`. -/
theorem spec_C8_witness :
    Block.table [['a'], ['b']] [[['c'], ['d']]] ∈
      mdParse "| a | b |\n| --- | --- |\n| c | d |" ∧
    (∀ c ∈ [['a'], ['b']], countSub trOpen (renderInline c) = 0) ∧
    (∀ c ∈ [['c'], ['d']], countSub trOpen (renderInline c) = 0) ∧
    (renderTable [['a'], ['b']] [[['c'], ['d']]] <:+:
      (outputDoc "| a | b |\n| --- | --- |\n| c | d |").data ∧
      renderTable [['a'], ['b']] [[['c'], ['d']]] =
        "<table>\n<thead>\n".data ++
          renderRowWith thCell [['a'], ['b']] ++
          "</thead>\n<tbody>\n".data ++ renderRowWith tdCell [['c'], ['d']] ++
          "</tbody>\n</table>".data ∧
      countSub trOpen (renderRowWith thCell [['a'], ['b']]) = 1 ∧
      countSub trOpen (renderRowWith tdCell [['c'], ['d']]) = 1) :=
  ⟨by decide, by decide, by decide,
    spec_C8 "| a | b |\n| --- | --- |\n| c | d |" [['a'], ['b']] [['c'], ['d']]
      (by decide) (by decide) (by decide)⟩

/-- Claim C9: the rendered fragment is interpolated into the template
verbatim, with no escaping, and the markdown input consisting of a raw
`<body>` tag produces an output document with more than one `<body>`
opening tag. -/
theorem spec_C9 :
    (∀ s : String, styled_html s = templateBefore ++ s ++ templateAfter) ∧
    1 < countSub bodyOpen (styled_html (mdRender "<body>")).data := by
  refine ⟨fun _ => rfl, ?_⟩
  rw [countSub_styled bodyOpen _ (by decide) (by decide)]
  decide
